import Mathlib

/-!
# Verification of `rustdoc-cli` (src/main.rs)

A shallow embedding of the documentation-rendering pipeline of
`twe4ked/rustdoc-cli`: the `syn` tree walker (`Visitor`), the doc-attribute
extractor (`format_doc`), the signature formatter (`format_signature`), the
`Display` implementations for `FnDoc`/`ModDoc`, and the Markdown-to-terminal
converter (`format_markdown`).

Strings are embedded as `List Char` (`Str`).  Rust's panicking operations
(`String::remove` out of bounds, `todo!`) are embedded as `Option`/`Except`
failures.  The third-party highlighter (`syntect`) and the Markdown parser
(`pulldown_cmark::Parser`) are external crates: the converter is parametrised
over a per-line highlighting function and the top-level pipeline over a
parsing function, with concrete models (documented below) used to instantiate
them in closed statements.
-/

/-- Embedded strings: Rust `String` as a list of characters. -/
abbrev Str := List Char

namespace RustdocCli

/-! ## Markdown event stream (pulldown_cmark 0.x `Event` / `Tag`) -/

/-- Embedding of `pulldown_cmark::CodeBlockKind`: a code block is either indented or fenced
with a (possibly empty) info string naming the language tag. -/
inductive CodeBlockKind where
  | indented : CodeBlockKind
  | fenced : Str → CodeBlockKind
deriving DecidableEq, Repr

/-- Embedding of `pulldown_cmark::Tag` (the block tags).  `format_markdown` handles only
`paragraph`, `heading` and `codeBlock`; every other tag hits `todo!`. -/
inductive Tag where
  | paragraph : Tag
  | heading : Nat → Tag
  | codeBlock : CodeBlockKind → Tag
  | blockQuote : Tag
  | list : Tag
  | item : Tag
  | footnoteDefinition : Tag
  | table : Tag
  | tableHead : Tag
  | tableRow : Tag
  | tableCell : Tag
  | emphasis : Tag
  | strong : Tag
  | strikethrough : Tag
  | link : Tag
  | image : Tag
deriving DecidableEq, Repr

/-- Embedding of `pulldown_cmark::Event`.  `startTag`/`endTag`/`text` are the handled
kinds; the remaining constructors all hit `todo!` in `format_markdown`. -/
inductive Event where
  | startTag : Tag → Event
  | endTag : Tag → Event
  | text : Str → Event
  | code : Str → Event
  | html : Str → Event
  | footnoteReference : Str → Event
  | softBreak : Event
  | hardBreak : Event
  | rule : Event
  | taskListMarker : Bool → Event
deriving DecidableEq, Repr

/-! ## The Markdown-to-terminal converter (`format_markdown`) -/

/-- The converter's mutable locals: `out` and `code` buffers and the
`is_code` flag (`let mut out / code / is_code` in `format_markdown`). -/
structure MDState where
  out : Str
  code : Str
  is_code : Bool
deriving DecidableEq, Repr

/-- Embedding of `syntect::util::LinesWithEndings::from`: split a string into lines, each
line keeping its trailing newline; a final fragment without a newline is kept;
the empty string yields no lines.  Auxiliary: `acc` holds the current line so
far, reversed. -/
def linesWithEndingsAux : Str → Str → List Str
  | [], acc => if acc = [] then [] else [acc.reverse]
  | c :: rest, acc =>
      if c = '\n' then (acc.reverse ++ ['\n']) :: linesWithEndingsAux rest []
      else linesWithEndingsAux rest (c :: acc)

/-- Embedding of `syntect::util::LinesWithEndings::from` on a whole string. -/
def linesWithEndings (s : Str) : List Str := linesWithEndingsAux s []

/-- The ANSI reset escape sequence written after each highlighted block
(`write!(out, "\x1b[0m\n\n")` minus the two newlines). -/
def ansiReset : Str := "\x1b[0m".data

/-- The fixed syntax chosen at every code-block end:
`ps.find_syntax_by_extension("rs")` — hard-coded, never the fence's tag. -/
def rsExtension : Str := "rs".data

/-- The fixed colour theme chosen at every code-block end:
`&ts.themes["base16-ocean.dark"]`. -/
def hardCodedTheme : Str := "base16-ocean.dark".data

/-- One step of `format_markdown`'s `for event in parser` loop, parametrised
over the highlighting family `hlWith syntax theme line` standing for
`as_24_bit_terminal_escaped(h.highlight(line, &ps), true)` for a
`HighlightLines` built from the named syntax and theme.  `todo!` branches
become `Except.error`. -/
def step (hlWith : Str → Str → Str → Str) (st : MDState) :
    Event → Except Str MDState
  | .startTag t =>
    match t with
    | .codeBlock _ => .ok { st with is_code := true }
    | .paragraph => .ok st
    | .heading level =>
        .ok { st with
              out := st.out ++ "\n\n".data ++ List.replicate level '#' ++ [' '] }
    | _ => .error "not yet implemented: start tag".data
  | .endTag t =>
    match t with
    | .codeBlock _ =>
        .ok { out := st.out
                ++ ((linesWithEndings st.code).map
                      (hlWith rsExtension hardCodedTheme)).flatten
                ++ ansiReset ++ "\n\n".data,
              code := [],
              is_code := false }
    | .heading _ => .ok { st with out := st.out ++ "\n\n".data }
    | .paragraph => .ok { st with code := st.code ++ "\n\n".data }
    | _ => .error "not yet implemented: end tag".data
  | .text s =>
      if st.is_code then .ok { st with code := st.code ++ s }
      else .ok { st with out := st.out ++ s }
  | .code _ => .error "not yet implemented: Code".data
  | .html _ => .error "not yet implemented: Html".data
  | .footnoteReference _ => .error "not yet implemented: FootnoteReference".data
  | .softBreak => .error "not yet implemented: SoftBreak".data
  | .hardBreak => .error "not yet implemented: HardBreak".data
  | .rule => .error "not yet implemented: Rule".data
  | .taskListMarker _ => .error "not yet implemented: TaskListMarker".data

/-- The whole `for event in parser` loop of `format_markdown`, threading the
state through the event list. -/
def processEvents (hlWith : Str → Str → Str → Str) (st : MDState) :
    List Event → Except Str MDState
  | [] => .ok st
  | e :: rest => do processEvents hlWith (← step hlWith st e) rest

/-- The initial state of `format_markdown`: both buffers empty,
`is_code = false`. -/
def initState : MDState := ⟨[], [], false⟩

/-- The function `format_markdown`, given the already-parsed event stream: run the loop
from the initial state and return the `out` buffer. -/
def format_markdown (hlWith : Str → Str → Str → Str) (events : List Event) :
    Except Str Str :=
  (processEvents hlWith initState events).map MDState.out

/-- Modelled highlighter for closed statements: `syntect`'s documented
`as_24_bit_terminal_escaped(.., true)` output shape — a 24-bit background and
foreground escape followed by the line's text, and no reset sequence.  The
concrete colour bytes stand in for whatever the theme assigns. -/
def modelEscape (_synName _theme line : Str) : Str :=
  "\x1b[48;2;43;48;59m".data ++ "\x1b[38;2;192;197;206m".data ++ line

/-! ## The doc-attribute extractor (`format_doc`) -/

/-- Embedding of `syn::AttrStyle`: outer (`#[...]`, `/// ...`) vs inner
(`#![...]`, `//! ...`) attributes. -/
inductive AttrStyle where
  | outer : AttrStyle
  | inner : AttrStyle
deriving DecidableEq, Repr

/-- Embedding of `proc_macro2::TokenTree`, as iterated by `attr.tokens.clone().into_iter()`.
A `literal` carries the literal's textual form (`lit.to_string()` in Rust),
quotes included.  `format_doc` inspects only top-level `literal` trees. -/
inductive TokenTree where
  | literal : Str → TokenTree
  | group : List TokenTree → TokenTree
  | identTok : Str → TokenTree
  | punct : Char → TokenTree

/-- Embedding of `syn::Attribute`: its style, its path (e.g. `doc`, `allow`, `must_use`
— kept in the model even though `format_doc` never reads it) and its token
stream. -/
structure Attribute where
  style : AttrStyle
  path : Str
  tokens : List TokenTree

/-- Rust `String::remove(0)`: panics (here `none`) on an empty string,
otherwise drops the first character. -/
def removeFirst : Str → Option Str
  | [] => none
  | _ :: rest => some rest

/-- The body of `format_doc`'s `TokenTree::Literal(lit)` arm:
`lit.remove(0)` twice (first the opening quote, then the assumed leading
space), then — if non-empty — `lit.remove(lit.len() - 1)` (the closing
quote), then `write!(doc, "{}\n", lit)`. -/
def processLiteral (lit : Str) : Option Str := do
  let l1 ← removeFirst lit
  let l2 ← removeFirst l1
  let l3 := if l2 = [] then l2 else l2.dropLast
  pure (l3 ++ ['\n'])

/-- The inner `for token in attr.tokens` loop of `format_doc`: concatenate the
processed top-level literals, in order; any panicking literal aborts. -/
def docTokens : List TokenTree → Option Str
  | [] => some []
  | .literal lit :: rest => do
      let l ← processLiteral lit
      let r ← docTokens rest
      pure (l ++ r)
  | _ :: rest => docTokens rest

/-- The function `format_doc(attrs)`: the outer `for attr in attrs` loop — attributes with
`AttrStyle::Outer` contribute their processed literals, all others are
skipped; contributions are concatenated in attribute order. -/
def format_doc : List Attribute → Option Str
  | [] => some []
  | a :: rest =>
      if a.style = .outer then do
        let h ← docTokens a.tokens
        let t ← format_doc rest
        pure (h ++ t)
      else format_doc rest

/-! ## Signatures, `FnDoc`, `ModDoc` and their `Display` impls -/

/-- Embedding of `syn::Signature`, reduced to the single field `format_signature` reads. -/
structure Signature where
  ident : Str
deriving DecidableEq, Repr

/-- The function `format_signature`: `format!("fn {}()\n\n", &sig.ident)`. -/
def format_signature (sig : Signature) : Str :=
  "fn ".data ++ sig.ident ++ "()\n\n".data

/-- Rust's `format!("{:f^w}", s)` centre alignment: if `s` is at least `w`
characters it is unchanged; otherwise it is padded with the fill character,
the smaller half on the left. -/
def centerPad (s : Str) (width : Nat) (fill : Char) : Str :=
  if width ≤ s.length then s
  else
    let total := width - s.length
    List.replicate (total / 2) fill ++ s ++ List.replicate (total - total / 2) fill

/-- The `FnDoc` struct: a rendered signature and the raw doc string. -/
structure FnDoc where
  signature : Str
  doc : Str
deriving DecidableEq, Repr

/-- The `ModDoc` struct: the module identifier and the raw doc string. -/
structure ModDoc where
  ident : Str
  doc : Str
deriving DecidableEq, Repr

/-- The `Doc` enum: either a function doc or a module doc. -/
inductive Doc where
  | fnDoc : FnDoc → Doc
  | modDoc : ModDoc → Doc
deriving DecidableEq, Repr

/-- Embedding of `impl fmt::Display for FnDoc`:
`"{hl}\n\n{signature}{format_markdown(doc)}\n\n"` with
`hl = format!("{:-^80}", "function")`.  Parametrised over the highlighter
family and the Markdown parser (`pulldown_cmark::Parser::new_ext` with empty
options), which turns the raw doc string into the event stream. -/
def fnDocDisplay (hlWith : Str → Str → Str → Str) (parse : Str → List Event)
    (d : FnDoc) : Except Str Str :=
  (format_markdown hlWith (parse d.doc)).map fun md =>
    centerPad "function".data 80 '-' ++ "\n\n".data ++ d.signature ++ md
      ++ "\n\n".data

/-- Embedding of `impl fmt::Display for ModDoc`:
`"{hl}\n\n{format_markdown(doc)}\n\n"` with
`hl = format!("{:-^80}", format!("module {}", ident))`. -/
def modDocDisplay (hlWith : Str → Str → Str → Str) (parse : Str → List Event)
    (d : ModDoc) : Except Str Str :=
  (format_markdown hlWith (parse d.doc)).map fun md =>
    centerPad ("module ".data ++ d.ident) 80 '-' ++ "\n\n".data ++ md
      ++ "\n\n".data

/-- Embedding of `impl fmt::Display for Doc`: dispatch to the variant's impl. -/
def docDisplay (hlWith : Str → Str → Str → Str) (parse : Str → List Event) :
    Doc → Except Str Str
  | .fnDoc d => fnDocDisplay hlWith parse d
  | .modDoc d => modDocDisplay hlWith parse d

/-! ## The tree walker (`impl Visit for Visitor`) -/

/-- A `syn` item, reduced to what the `Visit` impl distinguishes:
`itemFn` (an `ItemFn`: signature, attributes, and the items nested in its
block, in source order), `itemMod` (an `ItemMod`: identifier, attributes, and
its content when it has a body), and `itemOther` (any other item kind — the
default visit still descends into the items nested inside it, e.g. the
functions inside an `impl` block). -/
inductive Item where
  | itemFn : Signature → List Attribute → List Item → Item
  | itemMod : Str → List Attribute → Option (List Item) → Item
  | itemOther : List Item → Item

mutual

/-- The `Visitor` impl's visit of one item: for `ItemFn`, push
`Doc::FnDoc { signature, doc }` and then delegate to the default impl (which
visits the nested items); for `ItemMod`, push `Doc::ModDoc { ident, doc }`
and delegate; other items are only descended into.  `docs` is the
accumulated `self.docs` vector; a panic in `format_doc` aborts (`none`). -/
def visitItem (docs : List Doc) : Item → Option (List Doc)
  | .itemFn sig attrs body => do
      let doc ← format_doc attrs
      visitItems (docs ++ [.fnDoc ⟨format_signature sig, doc⟩]) body
  | .itemMod ident attrs content => do
      let doc ← format_doc attrs
      let docs := docs ++ [.modDoc ⟨ident, doc⟩]
      match content with
      | some items => visitItems docs items
      | none => pure docs
  | .itemOther children => visitItems docs children

/-- The default visitor's walk over a list of sibling items, top to bottom. -/
def visitItems (docs : List Doc) : List Item → Option (List Doc)
  | [] => some docs
  | i :: rest => do visitItems (← visitItem docs i) rest

end

/-- The call `visitor.visit_file(&ast)` starting from `Visitor { docs: Vec::new() }`:
the `DocCollection` produced for a parsed file (its top-level items). -/
def visit_file (items : List Item) : Option (List Doc) :=
  visitItems [] items

mutual

/-- Specification-style pre-order collection for one item: record the item's
own doc entry first, then the entries of its children, depth-first. -/
def preorderItem : Item → Option (List Doc)
  | .itemFn sig attrs body => do
      let doc ← format_doc attrs
      let rest ← preorderItems body
      pure (Doc.fnDoc ⟨format_signature sig, doc⟩ :: rest)
  | .itemMod ident attrs content => do
      let doc ← format_doc attrs
      let rest ← match content with
        | some items => preorderItems items
        | none => pure []
      pure (Doc.modDoc ⟨ident, doc⟩ :: rest)
  | .itemOther children => preorderItems children

/-- Pre-order collection over sibling items, top to bottom. -/
def preorderItems : List Item → Option (List Doc)
  | [] => some []
  | i :: rest => do pure ((← preorderItem i) ++ (← preorderItems rest))

end

mutual

/-- The number of function and module declarations in one item, its nested
declarations included. -/
def countDecls : Item → Nat
  | .itemFn _ _ body => 1 + countDeclsList body
  | .itemMod _ _ (some content) => 1 + countDeclsList content
  | .itemMod _ _ none => 1
  | .itemOther children => countDeclsList children

/-- The number of function and module declarations in a list of items. -/
def countDeclsList : List Item → Nat
  | [] => 0
  | i :: rest => countDecls i + countDeclsList rest

end

/-! ## The top-level pipeline (`main`'s printing loop) -/

/-- The `main` function's `for doc in visitor.docs { print!("{}", doc) }` loop, with the
process's standard output made explicit: on success, the concatenation of all
rendered blocks; on the first rendering failure (a `todo!` panic inside
`format_markdown`), the output printed so far paired with the single
diagnostic. -/
def printDocs (hlWith : Str → Str → Str → Str) (parse : Str → List Event) :
    List Doc → Except (Str × Str) Str
  | [] => .ok []
  | d :: rest =>
    match docDisplay hlWith parse d with
    | .error e => .error ([], e)
    | .ok s =>
      match printDocs hlWith parse rest with
      | .ok out => .ok (s ++ out)
      | .error (sofar, e) => .error (s ++ sofar, e)

/-! ## Observation helpers: ANSI escape occurrences, unsupported events -/

/-- The number of positions of `s` at which the pattern `pat` occurs as a
contiguous substring. -/
def countOccs (pat : Str) : Str → Nat
  | [] => 0
  | c :: rest =>
      (if pat.isPrefixOf (c :: rest) then 1 else 0) + countOccs pat rest

/-- The first position of `s` at which `pat` occurs, if any. -/
def firstOcc (pat : Str) : Str → Option Nat
  | [] => none
  | c :: rest =>
      if pat.isPrefixOf (c :: rest) then some 0
      else (firstOcc pat rest).map (· + 1)

/-- The start of a 24-bit ANSI foreground colour escape sequence
(`CSI 38;2;r;g;b m`), as emitted for every highlighted range. -/
def color24 : Str := "\x1b[38;2;".data

/-- The Markdown event kinds outside `format_markdown`'s supported set: the
event-level `todo!()` arms (inline code spans, raw HTML, footnote references,
soft/hard line breaks, horizontal rules, task-list markers). -/
def unsupportedEvent : Event → Bool
  | .code _ => true
  | .html _ => true
  | .footnoteReference _ => true
  | .softBreak => true
  | .hardBreak => true
  | .rule => true
  | .taskListMarker _ => true
  | _ => false

/-- The per-literal contribution of `format_doc`, as the total function it
computes on literals of length at least two: drop the first two characters
(the opening quote and the assumed leading space), drop the final character
(the closing quote) when anything remains, and append a newline. -/
def literalContribution (lit : Str) : Str :=
  (if lit.drop 2 = [] then lit.drop 2 else (lit.drop 2).dropLast) ++ ['\n']

/-- The contribution of one top-level token tree to `format_doc`'s output:
only literals contribute. -/
def tokenContribution : TokenTree → Str
  | .literal lit => literalContribution lit
  | _ => []

/-- The contribution of one attribute to `format_doc`'s output: outer
attributes contribute all their top-level literals, in order; inner
attributes contribute nothing. -/
def attrContribution (a : Attribute) : Str :=
  if a.style = .outer then (a.tokens.map tokenContribution).flatten else []

/-- A modelled Markdown parse for closed pipeline statements: the empty doc
string parses to no events; any non-empty doc string parses to a single
horizontal rule — one of the unsupported constructs. -/
def ruleParse (s : Str) : List Event :=
  if s = [] then [] else [Event.rule]

/-! ## Theorems -/

/-- **C6.** For every heading token, `format_markdown` emits at heading start
a blank-line separator followed by a run of marker characters whose count
equals the heading level and a single trailing space, and at heading end a
blank-line separator; a level-2 heading with text `Examples` yields exactly
two `#` characters, one space and the text, bounded by blank-line separators
on both sides. -/
theorem heading_rendering (hlWith : Str → Str → Str → Str) (st : MDState)
    (level : Nat) :
    step hlWith st (.startTag (.heading level)) =
      .ok { st with
            out := st.out ++ "\n\n".data ++ List.replicate level '#' ++ [' '] } ∧
    step hlWith st (.endTag (.heading level)) =
      .ok { st with out := st.out ++ "\n\n".data } ∧
    format_markdown hlWith
        [.startTag (.heading 2), .text "Examples".data, .endTag (.heading 2)] =
      .ok ("\n\n".data ++ List.replicate 2 '#' ++ [' ']
            ++ "Examples".data ++ "\n\n".data) :=
  ⟨rfl, rfl, rfl⟩

/-- **C4.** At every code-block end the converter clears the
inside-code-block flag, clears the code buffer, and appends to the output the
highlighted lines of the buffered code — highlighted with the hard-coded
syntax `"rs"` and the fixed theme `"base16-ocean.dark"`, never the fence's
declared tag (the step result is independent of the fence kind) — with line
endings preserved, followed by exactly one ANSI reset escape; for a doc body
holding one fenced code block with content `let x = 1;`, the modelled output
contains at least one 24-bit colour escape and exactly one reset escape, and
the first colour escape (position 16) precedes the first reset (position 45). -/
theorem code_block_end_contract :
    (∀ (hlWith : Str → Str → Str → Str) (st : MDState) (k : CodeBlockKind),
      step hlWith st (.endTag (.codeBlock k)) =
        .ok { out := st.out
                ++ ((linesWithEndings st.code).map
                      (hlWith rsExtension hardCodedTheme)).flatten
                ++ ansiReset ++ "\n\n".data,
              code := [], is_code := false }) ∧
    (∀ (hlWith : Str → Str → Str → Str) (st : MDState) (k k' : CodeBlockKind),
      step hlWith st (.endTag (.codeBlock k)) =
        step hlWith st (.endTag (.codeBlock k'))) ∧
    (∃ out,
      format_markdown modelEscape
          [.startTag (.codeBlock (.fenced "rust".data)),
           .text "let x = 1;".data,
           .endTag (.codeBlock (.fenced "rust".data))] = .ok out ∧
      1 ≤ countOccs color24 out ∧
      countOccs ansiReset out = 1 ∧
      firstOcc color24 out = some 16 ∧
      firstOcc ansiReset out = some 45 ∧ (16 : Nat) < 45) := by
  refine ⟨fun _ _ _ => rfl, fun _ _ _ _ => rfl,
    ⟨"\x1b[48;2;43;48;59m\x1b[38;2;192;197;206mlet x = 1;\x1b[0m\n\n".data,
      ?_, ?_, ?_, ?_, ?_, ?_⟩⟩
  · rfl
  · decide
  · decide
  · decide
  · decide
  · decide

/-- **C1 (counterexample).** The paragraph-boundary separator is NOT routed
into the output buffer when the converter is outside a code block: for the
event stream of a single paragraph `hi`, the final output buffer is `hi`
(without the separator the claim mandates) and the separator `\n\n` sits in
the code buffer, even though the inside-code-block flag was never set. -/
theorem paragraph_separator_routing_cex :
    processEvents modelEscape initState
        [.startTag .paragraph, .text "hi".data, .endTag .paragraph] =
      .ok ⟨"hi".data, "\n\n".data, false⟩ ∧
    ("hi".data : Str) ≠ "hi".data ++ "\n\n".data ∧
    ("\n\n".data : Str) ≠ [] :=
  ⟨rfl, by decide, by decide⟩

/-- **C1 (amended).** A paragraph-boundary blank-line separator is always
written into the code buffer, whatever the inside-code-block flag; text
events accumulate in the code buffer exactly while the flag is set (and in
the output buffer otherwise); and the code buffer is cleared only at a
code-block end, where it is flushed through the highlighter into the output
exactly once — every other successful step only appends to the code buffer. -/
theorem markdown_buffer_routing (hlWith : Str → Str → Str → Str) :
    (∀ st : MDState,
      step hlWith st (.endTag .paragraph) =
        .ok { st with code := st.code ++ "\n\n".data }) ∧
    (∀ (o c : Str) (s : Str),
      step hlWith ⟨o, c, false⟩ (.text s) = .ok ⟨o ++ s, c, false⟩) ∧
    (∀ (o c : Str) (s : Str),
      step hlWith ⟨o, c, true⟩ (.text s) = .ok ⟨o, c ++ s, true⟩) ∧
    (∀ (st : MDState) (k : CodeBlockKind),
      step hlWith st (.endTag (.codeBlock k)) =
        .ok { out := st.out
                ++ ((linesWithEndings st.code).map
                      (hlWith rsExtension hardCodedTheme)).flatten
                ++ ansiReset ++ "\n\n".data,
              code := [], is_code := false }) ∧
    (∀ (st : MDState) (e : Event),
      match step hlWith st e with
      | .error _ => True
      | .ok st' =>
          (∃ t, st'.code = st.code ++ t) ∨
          ((∃ k, e = .endTag (.codeBlock k)) ∧ st'.code = [])) := by
  refine ⟨fun _ => rfl, fun _ _ _ => rfl, fun _ _ _ => rfl, fun _ _ => rfl,
    fun st e => ?_⟩
  have hext : ∀ st' : MDState, st'.code = st.code →
      (∃ t, st'.code = st.code ++ t) ∨
        ((∃ k, e = .endTag (.codeBlock k)) ∧ st'.code = []) :=
    fun st' h => Or.inl ⟨[], by simp [h]⟩
  cases e with
  | startTag t => cases t <;> first | trivial | exact hext _ rfl
  | endTag t =>
    cases t with
    | paragraph => exact Or.inl ⟨"\n\n".data, rfl⟩
    | heading level => exact hext _ rfl
    | codeBlock k => exact Or.inr ⟨⟨k, rfl⟩, rfl⟩
    | _ => trivial
  | text s =>
    rcases st with ⟨o, c, flag⟩
    cases flag with
    | false => exact hext _ rfl
    | true => exact Or.inl ⟨s, rfl⟩
  | code s => trivial
  | html s => trivial
  | footnoteReference s => trivial
  | softBreak => trivial
  | hardBreak => trivial
  | rule => trivial
  | taskListMarker b => trivial

/-- On a literal of length at least two, `processLiteral` never panics and
computes `literalContribution`. -/
theorem processLiteral_eq (lit : Str) (h : 2 ≤ lit.length) :
    processLiteral lit = some (literalContribution lit) := by
  match lit, h with
  | a :: b :: rest, _ =>
    simp [processLiteral, removeFirst, literalContribution, Option.bind]

/-- When every top-level literal has length at least two, the token loop of
`format_doc` computes the concatenated token contributions. -/
theorem docTokens_eq (toks : List TokenTree)
    (h : ∀ lit, TokenTree.literal lit ∈ toks → 2 ≤ lit.length) :
    docTokens toks = some ((toks.map tokenContribution).flatten) := by
  induction toks with
  | nil => rfl
  | cons t rest ih =>
    cases t with
    | literal lit =>
      have hl : 2 ≤ lit.length := h lit (List.mem_cons_self _ _)
      have hr := ih fun l hm => h l (List.mem_cons_of_mem _ hm)
      simp [docTokens, processLiteral_eq lit hl, hr, tokenContribution]
    | group ts =>
      simpa [docTokens, tokenContribution] using
        ih fun l hm => h l (List.mem_cons_of_mem _ hm)
    | identTok s =>
      simpa [docTokens, tokenContribution] using
        ih fun l hm => h l (List.mem_cons_of_mem _ hm)
    | punct ch =>
      simpa [docTokens, tokenContribution] using
        ih fun l hm => h l (List.mem_cons_of_mem _ hm)

/-- When every literal of every outer attribute has length at least two,
`format_doc` computes the concatenated attribute contributions. -/
theorem format_doc_eq (attrs : List Attribute)
    (h : ∀ a ∈ attrs, a.style = .outer →
      ∀ lit, TokenTree.literal lit ∈ a.tokens → 2 ≤ lit.length) :
    format_doc attrs = some ((attrs.map attrContribution).flatten) := by
  induction attrs with
  | nil => rfl
  | cons a rest ih =>
    have hr := ih fun a' hm => h a' (List.mem_cons_of_mem _ hm)
    by_cases ha : a.style = .outer
    · have ht := docTokens_eq a.tokens (h a (List.mem_cons_self _ _) ha)
      simp [format_doc, ha, ht, hr, attrContribution]
    · simp [format_doc, ha, hr, attrContribution]

/-- **C2 (counterexample).** Non-doc outer attributes do contribute: for the
single outer attribute `#[must_use = "note"]` — not a doc-comment attribute —
`format_doc` produces `ote\n` (the literal is stripped like any doc literal),
whereas under the claim the raw doc string would be empty. -/
theorem format_doc_non_doc_attr_cex :
    format_doc
        [⟨.outer, "must_use".data,
          [.punct '=', .literal "\"note\"".data]⟩] = some "ote\n".data ∧
    ("ote\n".data : Str) ≠ [] :=
  ⟨rfl, by decide⟩

/-- **C2 (amended).** The raw doc string is built by recognizing every outer
attribute — regardless of its path, so non-doc outer attributes with
string-literal tokens also contribute — while inner attributes and non-literal
tokens contribute nothing; each recognized string-literal payload loses
exactly one leading quote character and one further leading character (the
assumed leading space), then, if the remainder is non-empty, one trailing
quote character, and gains a trailing newline; the results are concatenated
in attribute order. -/
theorem format_doc_characterization (attrs : List Attribute)
    (h : ∀ a ∈ attrs, a.style = .outer →
      ∀ lit, TokenTree.literal lit ∈ a.tokens → 2 ≤ lit.length) :
    format_doc attrs = some ((attrs.map attrContribution).flatten) :=
  format_doc_eq attrs h

/-- Witness for `format_doc_characterization`: the doc attribute of
`/// Hello` together with an inner attribute and a non-literal token. -/
theorem format_doc_characterization_witness :
    format_doc
        [⟨.inner, "doc".data, [.punct '=', .literal "\" skipped\"".data]⟩,
         ⟨.outer, "doc".data, [.punct '=', .literal "\" Hello\"".data]⟩] =
      some "Hello\n".data :=
  by
    have := format_doc_characterization
      [⟨.inner, "doc".data, [.punct '=', .literal "\" skipped\"".data]⟩,
       ⟨.outer, "doc".data, [.punct '=', .literal "\" Hello\"".data]⟩]
      (by
        intro a ha hs lit hl
        fin_cases ha <;> simp_all)
    simpa using this

/-- **C7.** A doc literal whose payload has no leading space after the
opening quote — textual form `"` then a first payload character `c ≠ ' '`
then `rest` then the closing quote — has that first character dropped: both
the literal processing step and `format_doc` on such an attribute render
`rest` followed by a newline, losing `c`. -/
theorem no_leading_space_drops_first_char (c : Char) (rest : Str)
    (_hc : c ≠ ' ') (path : Str) :
    processLiteral ('"' :: c :: (rest ++ ['"'])) = some (rest ++ ['\n']) ∧
    format_doc [⟨.outer, path, [.punct '=',
        .literal ('"' :: c :: (rest ++ ['"']))]⟩] = some (rest ++ ['\n']) := by
  have hp : processLiteral ('"' :: c :: (rest ++ ['"'])) =
      some (rest ++ ['\n']) := by
    simp [processLiteral, removeFirst, Option.bind]
  refine ⟨hp, ?_⟩
  simp [format_doc, docTokens, hp, Option.bind]

/-- Witness for `no_leading_space_drops_first_char`: `/// Hello` written
without the leading space (`#[doc = "Hello"]`) renders as `ello`. -/
theorem no_leading_space_drops_first_char_witness :
    format_doc [⟨.outer, "doc".data, [.punct '=',
        .literal ('"' :: 'H' :: ("ello".data ++ ['"']))]⟩] =
      some ("ello".data ++ ['\n']) :=
  (no_leading_space_drops_first_char 'H' "ello".data (by decide) "doc".data).2

/-- **C10.** For attribute lists in which every outer attribute's literal
token has the textual form of a string literal — at least two characters, the
opening and closing quotes — both leading removals and the conditional
trailing removal of `format_doc` stay in bounds: doc extraction completes
without panicking. -/
theorem format_doc_total (attrs : List Attribute)
    (h : ∀ a ∈ attrs, a.style = .outer →
      ∀ lit, TokenTree.literal lit ∈ a.tokens → 2 ≤ lit.length) :
    (format_doc attrs).isSome := by
  rw [format_doc_eq attrs h]
  rfl

/-- Witness for `format_doc_total`: a two-attribute list with two-character
and longer literals. -/
theorem format_doc_total_witness :
    (format_doc
        [⟨.outer, "doc".data, [.punct '=', .literal "\"\"".data]⟩,
         ⟨.outer, "doc".data, [.punct '=', .literal "\" Hi\"".data]⟩]).isSome :=
  format_doc_total _
    (by
      intro a ha hs lit hl
      fin_cases ha <;> simp_all)

mutual

/-- Visiting one item with the docs accumulated so far pushes exactly the
item's pre-order doc entries after them. -/
theorem visitItem_eq (docs : List Doc) (i : Item) :
    visitItem docs i = (preorderItem i).map (docs ++ ·) := by
  cases i with
  | itemFn sig attrs body =>
    cases hfd : format_doc attrs with
    | none => simp [visitItem, preorderItem, hfd]
    | some doc =>
      have hb := visitItems_eq
        (docs ++ [Doc.fnDoc ⟨format_signature sig, doc⟩]) body
      cases hpb : preorderItems body with
      | none =>
        rw [hpb] at hb
        simp [visitItem, preorderItem, hfd, hb, hpb]
      | some rest =>
        rw [hpb] at hb
        simp [visitItem, preorderItem, hfd, hb, hpb]
  | itemMod ident attrs content =>
    cases hfd : format_doc attrs with
    | none => cases content <;> simp [visitItem, preorderItem, hfd]
    | some doc =>
      cases content with
      | none => simp [visitItem, preorderItem, hfd]
      | some items =>
        have hb := visitItems_eq (docs ++ [Doc.modDoc ⟨ident, doc⟩]) items
        cases hpb : preorderItems items with
        | none =>
          rw [hpb] at hb
          simp [visitItem, preorderItem, hfd, hb, hpb]
        | some rest =>
          rw [hpb] at hb
          simp [visitItem, preorderItem, hfd, hb, hpb]
  | itemOther children =>
    have hb := visitItems_eq docs children
    simp [visitItem, preorderItem, hb]

/-- Visiting a sibling list with the docs accumulated so far pushes exactly
the list's pre-order doc entries after them. -/
theorem visitItems_eq (docs : List Doc) (items : List Item) :
    visitItems docs items = (preorderItems items).map (docs ++ ·) := by
  cases items with
  | nil => simp [visitItems, preorderItems]
  | cons i rest =>
    have hi := visitItem_eq docs i
    cases hpi : preorderItem i with
    | none => simp [visitItems, preorderItems, hi, hpi]
    | some d =>
      rw [hpi] at hi
      have hr := visitItems_eq (docs ++ d) rest
      cases hpr : preorderItems rest with
      | none =>
        rw [hpr] at hr
        simp [visitItems, preorderItems, hi, hpi, hr, hpr]
      | some ds =>
        rw [hpr] at hr
        simp [visitItems, preorderItems, hi, hpi, hr, hpr]

end

mutual

/-- The pre-order collection of one item has one entry per function or module
declaration in it. -/
theorem preorderItem_length (i : Item) (ds : List Doc)
    (h : preorderItem i = some ds) : ds.length = countDecls i := by
  cases i with
  | itemFn sig attrs body =>
    cases hfd : format_doc attrs with
    | none => simp [preorderItem, hfd] at h
    | some doc =>
      cases hpb : preorderItems body with
      | none => simp [preorderItem, hfd, hpb] at h
      | some rest =>
        have hl := preorderItems_length body rest hpb
        simp [preorderItem, hfd, hpb] at h
        subst h
        simp [countDecls, hl]
        omega
  | itemMod ident attrs content =>
    cases hfd : format_doc attrs with
    | none => cases content <;> simp [preorderItem, hfd] at h
    | some doc =>
      cases content with
      | none =>
        simp [preorderItem, hfd] at h
        subst h
        simp [countDecls]
      | some items =>
        cases hpb : preorderItems items with
        | none => simp [preorderItem, hfd, hpb] at h
        | some rest =>
          have hl := preorderItems_length items rest hpb
          simp [preorderItem, hfd, hpb] at h
          subst h
          simp [countDecls, hl]
          omega
  | itemOther children =>
    have hl := preorderItems_length children ds
    simp [preorderItem] at h
    simp [countDecls, hl h]

/-- The pre-order collection of a sibling list has one entry per declaration
in it. -/
theorem preorderItems_length (items : List Item) (ds : List Doc)
    (h : preorderItems items = some ds) : ds.length = countDeclsList items := by
  cases items with
  | nil =>
    simp [preorderItems] at h
    subst h
    rfl
  | cons i rest =>
    cases hpi : preorderItem i with
    | none => simp [preorderItems, hpi] at h
    | some d =>
      cases hpr : preorderItems rest with
      | none => simp [preorderItems, hpi, hpr] at h
      | some dr =>
        have h1 := preorderItem_length i d hpi
        have h2 := preorderItems_length rest dr hpr
        simp [preorderItems, hpi, hpr] at h
        subst h
        simp [countDeclsList, h1, h2]

end

/-- **C5.** The tree walker's `DocCollection` is exactly the depth-first,
pre-order, top-to-bottom collection of doc entries — every function and
module declaration is visited, declarations nested inside modules (or other
items) included, and each item is recorded before its children — and its
length equals the number of function and module declarations in the file. -/
theorem tree_walker_preorder (items : List Item) :
    visit_file items = preorderItems items ∧
    ∀ docs, visit_file items = some docs →
      docs.length = countDeclsList items := by
  have h := visitItems_eq [] items
  constructor
  · rw [visit_file, h]
    cases preorderItems items <;> simp
  · intro docs hd
    rw [visit_file, h] at hd
    cases hp : preorderItems items with
    | none => rw [hp] at hd; cases hd
    | some ds =>
      rw [hp] at hd
      simp at hd
      subst hd
      simpa using preorderItems_length items ds hp

/-- Witness for `tree_walker_preorder`: a module holding a nested function,
followed by a top-level function, yields three entries in pre-order. -/
theorem tree_walker_preorder_witness :
    visit_file
        [Item.itemMod "foo".data [] (some [Item.itemFn ⟨"a".data⟩ [] []]),
         Item.itemFn ⟨"main".data⟩ [] []] =
      preorderItems
        [Item.itemMod "foo".data [] (some [Item.itemFn ⟨"a".data⟩ [] []]),
         Item.itemFn ⟨"main".data⟩ [] []] ∧
    ([Doc.modDoc ⟨"foo".data, []⟩,
      Doc.fnDoc ⟨"fn a()\n\n".data, []⟩,
      Doc.fnDoc ⟨"fn main()\n\n".data, []⟩] : List Doc).length =
      countDeclsList
        [Item.itemMod "foo".data [] (some [Item.itemFn ⟨"a".data⟩ [] []]),
         Item.itemFn ⟨"main".data⟩ [] []] :=
  ⟨(tree_walker_preorder _).1, (tree_walker_preorder _).2 _ rfl⟩

/-- **C9.** The tree walker is deterministic: two runs on identical parsed
input produce `DocCollection`s of identical length with items in identical
order. -/
theorem tree_walker_deterministic (items : List Item)
    (docs₁ docs₂ : List Doc) (h₁ : visit_file items = some docs₁)
    (h₂ : visit_file items = some docs₂) :
    docs₁.length = docs₂.length ∧ docs₁ = docs₂ := by
  rw [h₁] at h₂
  cases h₂
  exact ⟨rfl, rfl⟩

/-- Witness for `tree_walker_deterministic`: two runs on a one-function file. -/
theorem tree_walker_deterministic_witness :
    ([Doc.fnDoc ⟨"fn main()\n\n".data, []⟩] : List Doc).length =
      ([Doc.fnDoc ⟨"fn main()\n\n".data, []⟩] : List Doc).length ∧
    ([Doc.fnDoc ⟨"fn main()\n\n".data, []⟩] : List Doc) =
      [Doc.fnDoc ⟨"fn main()\n\n".data, []⟩] :=
  tree_walker_deterministic [Item.itemFn ⟨"main".data⟩ [] []] _ _ rfl rfl

/-- **C8.** The renderer formats a function item named `N` with no doc
comments as the heading `function` centred with `-` in the fixed width 80,
a blank separator, and the signature line `fn N()` followed by an empty
rendered body; a module item named `N` is formatted with the heading
`module N` centred in the same fixed width and no separate signature line. -/
theorem renderer_block_layout (hlWith : Str → Str → Str → Str)
    (parse : Str → List Event) (hparse : parse [] = []) (N : Str)
    (m : ModDoc) (md : Str)
    (hm : format_markdown hlWith (parse m.doc) = .ok md) :
    fnDocDisplay hlWith parse ⟨format_signature ⟨N⟩, []⟩ =
      .ok (centerPad "function".data 80 '-' ++ "\n\n".data
            ++ "fn ".data ++ N ++ "()\n\n".data ++ "\n\n".data) ∧
    modDocDisplay hlWith parse m =
      .ok (centerPad ("module ".data ++ m.ident) 80 '-' ++ "\n\n".data
            ++ md ++ "\n\n".data) := by
  constructor
  · simp [fnDocDisplay, hparse, format_markdown, processEvents, initState,
      format_signature, Except.map]
  · simp [modDocDisplay, hm, Except.map]

/-- Witness for `renderer_block_layout`: a function `main` and a module
`foo`, both with empty doc strings, under the trivial parse. -/
theorem renderer_block_layout_witness :
    fnDocDisplay modelEscape (fun _ => []) ⟨format_signature ⟨"main".data⟩, []⟩ =
      .ok (centerPad "function".data 80 '-' ++ "\n\n".data
            ++ "fn ".data ++ "main".data ++ "()\n\n".data ++ "\n\n".data) ∧
    modDocDisplay modelEscape (fun _ => []) ⟨"foo".data, []⟩ =
      .ok (centerPad ("module ".data ++ "foo".data) 80 '-' ++ "\n\n".data
            ++ [] ++ "\n\n".data) :=
  renderer_block_layout modelEscape (fun _ => []) rfl "main".data
    ⟨"foo".data, []⟩ [] rfl

/-- On every unsupported event, the converter's step fails. -/
theorem step_unsupported (hlWith : Str → Str → Str → Str) (st : MDState)
    (e : Event) (hu : unsupportedEvent e = true) :
    ∃ msg, step hlWith st e = .error msg := by
  cases e <;> simp [unsupportedEvent] at hu <;> exact ⟨_, rfl⟩

/-- An event stream holding an unsupported event always makes the event loop
fail, from any state. -/
theorem processEvents_error (hlWith : Str → Str → Str → Str) (e : Event)
    (events : List Event) (he : e ∈ events)
    (hu : unsupportedEvent e = true) :
    ∀ st, ∃ msg, processEvents hlWith st events = .error msg := by
  induction events with
  | nil => cases he
  | cons f rest ih =>
    intro st
    rcases List.mem_cons.mp he with rfl | hmem
    · obtain ⟨msg, hmsg⟩ := step_unsupported hlWith st e hu
      exact ⟨msg, by simp only [processEvents]; rw [hmsg]; rfl⟩
    · cases hstep : step hlWith st f with
      | error msg =>
        exact ⟨msg, by simp only [processEvents]; rw [hstep]; rfl⟩
      | ok st' =>
        obtain ⟨msg, h⟩ := ih hmem st'
        refine ⟨msg, ?_⟩
        simp only [processEvents]
        rw [hstep]
        exact h

/-- **C3 (counterexample).** Standard output is not always empty on an
unsupported-construct failure: with a first item that renders cleanly and a
second whose doc body parses to a horizontal rule, the run fails with the
`Rule` diagnostic after the first item's non-empty block has already been
printed. -/
theorem unsupported_construct_stdout_cex :
    printDocs modelEscape ruleParse
        [.fnDoc ⟨format_signature ⟨"a".data⟩, []⟩,
         .fnDoc ⟨format_signature ⟨"b".data⟩, "x".data⟩] =
      .error (centerPad "function".data 80 '-' ++ "\n\n".data
                ++ "fn a()\n\n".data ++ "\n\n".data,
              "not yet implemented: Rule".data) ∧
    centerPad "function".data 80 '-' ++ "\n\n".data
        ++ "fn a()\n\n".data ++ "\n\n".data ≠ ([] : Str) :=
  ⟨rfl, by decide⟩

/-- **C3 (amended).** Encountering any event outside the supported set —
inline code spans, raw HTML, footnote references, soft or hard line breaks,
horizontal rules, task-list markers — fails the converter, and hence the
whole run, fatally and unrecoverably with one diagnostic message; standard
output receives exactly the blocks of the items fully rendered before the
failure — nothing when the failing item is the first — and nothing for or
after the failing item. -/
theorem unsupported_constructs_abort (hlWith : Str → Str → Str → Str)
    (parse : Str → List Event) (st : MDState) (e : Event)
    (events : List Event) (he : e ∈ events)
    (hu : unsupportedEvent e = true) :
    (∃ msg, step hlWith st e = .error msg) ∧
    (∃ msg, format_markdown hlWith events = .error msg) ∧
    printDocs hlWith parse [] = .ok [] ∧
    (∀ (d : Doc) (rest : List Doc) (msg : Str),
      docDisplay hlWith parse d = .error msg →
        printDocs hlWith parse (d :: rest) = .error ([], msg)) ∧
    (∀ (d : Doc) (rest : List Doc) (s sofar msg : Str),
      docDisplay hlWith parse d = .ok s →
        printDocs hlWith parse rest = .error (sofar, msg) →
        printDocs hlWith parse (d :: rest) = .error (s ++ sofar, msg)) := by
  refine ⟨step_unsupported hlWith st e hu, ?_, rfl, ?_, ?_⟩
  · obtain ⟨msg, h⟩ := processEvents_error hlWith e events he hu initState
    exact ⟨msg, by simp only [format_markdown]; rw [h]; rfl⟩
  · intro d rest msg hd
    simp [printDocs, hd]
  · intro d rest s sofar msg hd hrest
    simp [printDocs, hd, hrest]

/-- Witness for `unsupported_constructs_abort`: a single-rule event stream
and an item whose doc body parses to that rule, failing first in the list. -/
theorem unsupported_constructs_abort_witness :
    printDocs modelEscape ruleParse [] = .ok [] ∧
    printDocs modelEscape ruleParse
        [.fnDoc ⟨format_signature ⟨"b".data⟩, "x".data⟩] =
      .error ([], "not yet implemented: Rule".data) :=
  have h := unsupported_constructs_abort modelEscape ruleParse initState
    .rule [.rule] (by simp) rfl
  ⟨h.2.2.1, h.2.2.2.1 _ [] _ rfl⟩

end RustdocCli
